import Mathlib

/-!
Verification of the CSV ingestion / normalization / accumulation pipeline of
the ritsumeikan-baseball repository (src/app.py, src/ritsumeikan_app.py,
src/ritumeikan_app.py), as a shallow embedding.

Tables are modelled positionally: a `DF` is a list of column names together
with a list of rows, each row a list of cells.  A cell is a missing marker
(pandas NaN / NaT / NA), a raw string, a rational number (modelling a float),
or a calendar date.  All definitions are executable; pandas and Python
library behaviour that the source relies on (read_csv with the default
comma separator, to_numeric / to_datetime with coercion, drop_duplicates
keeping the first occurrence, csv.reader field splitting, bytes.decode) is
modelled explicitly next to the corresponding definitions.
-/

namespace Baseball

/-- Whitespace test used by the model of Python `str.strip`. -/
def isWS (c : Char) : Bool := c = ' ' ∨ c = '\t' ∨ c = '\n' ∨ c = '\r'

/-- Model of Python `str.strip()` (trim whitespace at both ends). -/
def pyStrip (s : String) : String :=
  String.mk (((s.data.dropWhile isWS).reverse.dropWhile isWS).reverse)

/-- Strip all leading and trailing occurrences of one character, as Python
`str.strip(ch)` does. -/
def pyStripChar (ch : Char) (s : String) : String :=
  String.mk (((s.data.dropWhile (· = ch)).reverse.dropWhile (· = ch)).reverse)

/-- Split a character list on a separator character. -/
def splitOnCharAux (sep : Char) : List Char → List Char → List (List Char)
  | [], cur => [cur.reverse]
  | c :: rest, cur =>
      if c = sep then cur.reverse :: splitOnCharAux sep rest []
      else splitOnCharAux sep rest (c :: cur)

/-- Split a string on a separator character (like Python `str.split(sep)`
for a one-character separator). -/
def splitOnChar (sep : Char) (s : String) : List String :=
  (splitOnCharAux sep s.data []).map String.mk

/-- One cell of a data frame: missing (NaN / NaT / NA), a raw string, a
number (rational, modelling a Python float), or a calendar date. -/
inductive Cell where
  | na : Cell
  | str : String → Cell
  | num : ℚ → Cell
  | date : Nat → Nat → Nat → Cell
deriving DecidableEq

/-- A pandas DataFrame, modelled positionally: named columns and rows of
cells.  Well-formed frames have every row of length `cols.length`. -/
structure DF where
  cols : List String
  rows : List (List Cell)
deriving DecidableEq

deriving instance DecidableEq for Except

theorem DF_ext {a b : DF} (hc : a.cols = b.cols) (hr : a.rows = b.rows) :
    a = b := by
  cases a
  cases b
  cases hc
  cases hr
  rfl

/-- Index of a column name in a header list (pandas column lookup). -/
def colIdx (cols : List String) (c : String) : Option Nat :=
  match cols with
  | [] => none
  | c' :: rest =>
      if c' = c then some 0 else (colIdx rest c).map (· + 1)

/-- The cell of a row at a named column; missing columns and short rows read
as missing (the alignment behaviour of pandas). -/
def cellAt (cols : List String) (c : String) (r : List Cell) : Cell :=
  match colIdx cols c with
  | some i => r.getD i Cell.na
  | none => Cell.na

/-- Projection of a row onto a list of key columns, in key order.  This is
the tuple that `DataFrame.drop_duplicates(subset=keys)` compares; pandas
treats NaN as equal to NaN there, which the `Cell` equality also does. -/
def projRow (cols keys : List String) (r : List Cell) : List Cell :=
  keys.map (fun c => cellAt cols c r)

/-- Keep-first deduplication by a key function, with an accumulator of keys
already seen.  `dedupBy f xs []` is the model of
`drop_duplicates(subset=keys)` (default `keep="first"`). -/
def dedupBy {α β : Type} [DecidableEq β] (f : α → β) : List α → List β → List α
  | [], _ => []
  | x :: xs, seen =>
      if f x ∈ seen then dedupBy f xs seen
      else x :: dedupBy f xs (f x :: seen)

theorem dedupBy_congr {α β : Type} [DecidableEq β] (f : α → β) (xs : List α)
    {s₁ s₂ : List β} (h : ∀ b, b ∈ s₁ ↔ b ∈ s₂) :
    dedupBy f xs s₁ = dedupBy f xs s₂ := by
  induction xs generalizing s₁ s₂ with
  | nil => rfl
  | cons x xs ih =>
      by_cases hx : f x ∈ s₁
      · rw [dedupBy, if_pos hx, dedupBy, if_pos ((h _).mp hx)]
        exact ih h
      · rw [dedupBy, if_neg hx, dedupBy, if_neg (fun hc => hx ((h _).mpr hc))]
        refine congrArg (x :: ·) (ih ?_)
        intro b
        simp only [List.mem_cons]
        exact or_congr Iff.rfl (h b)

theorem dedupBy_append {α β : Type} [DecidableEq β] (f : α → β)
    (xs ys : List α) (s : List β) :
    dedupBy f (xs ++ ys) s = dedupBy f xs s ++ dedupBy f ys (xs.map f ++ s) := by
  induction xs generalizing s with
  | nil => rfl
  | cons x xs ih =>
      by_cases hx : f x ∈ s
      · rw [List.cons_append, dedupBy, if_pos hx, dedupBy, if_pos hx, ih]
        refine congrArg (dedupBy f xs s ++ ·) (dedupBy_congr f ys ?_)
        intro b
        simp only [List.map_cons, List.cons_append, List.mem_cons, List.mem_append]
        constructor
        · rintro (h | h) <;> simp_all
        · rintro (rfl | h | h) <;> simp_all
      · rw [List.cons_append, dedupBy, if_neg hx, dedupBy, if_neg hx, ih]
        rw [List.cons_append]
        refine congrArg (x :: ·) (congrArg (dedupBy f xs (f x :: s) ++ ·)
          (dedupBy_congr f ys ?_))
        intro b
        simp only [List.map_cons, List.cons_append, List.mem_cons, List.mem_append]
        tauto

theorem dedupBy_subset {α β : Type} [DecidableEq β] {f : α → β}
    {xs : List α} {s : List β} {y : α} (hy : y ∈ dedupBy f xs s) : y ∈ xs := by
  induction xs generalizing s with
  | nil => simp [dedupBy] at hy
  | cons x xs ih =>
      by_cases hx : f x ∈ s
      · rw [dedupBy, if_pos hx] at hy
        exact List.mem_cons_of_mem x (ih hy)
      · rw [dedupBy, if_neg hx] at hy
        rcases List.mem_cons.mp hy with h | h
        · exact h ▸ List.mem_cons_self x xs
        · exact List.mem_cons_of_mem x (ih h)

theorem dedupBy_key_not_seen {α β : Type} [DecidableEq β] {f : α → β}
    {xs : List α} {s : List β} {y : α} (hy : y ∈ dedupBy f xs s) : f y ∉ s := by
  induction xs generalizing s with
  | nil => simp [dedupBy] at hy
  | cons x xs ih =>
      by_cases hx : f x ∈ s
      · rw [dedupBy, if_pos hx] at hy
        exact ih hy
      · rw [dedupBy, if_neg hx] at hy
        rcases List.mem_cons.mp hy with h | h
        · exact h ▸ hx
        · intro hc
          exact ih h (List.mem_cons_of_mem _ hc)

theorem dedupBy_keys_nodup {α β : Type} [DecidableEq β] (f : α → β)
    (xs : List α) (s : List β) : ((dedupBy f xs s).map f).Nodup := by
  induction xs generalizing s with
  | nil => simp [dedupBy]
  | cons x xs ih =>
      by_cases hx : f x ∈ s
      · rw [dedupBy, if_pos hx]; exact ih s
      · rw [dedupBy, if_neg hx, List.map_cons, List.nodup_cons]
        refine ⟨?_, ih (f x :: s)⟩
        intro hc
        rcases List.mem_map.mp hc with ⟨y, hy, hfy⟩
        exact dedupBy_key_not_seen hy (hfy ▸ List.mem_cons_self _ _)

theorem dedupBy_of_nodup {α β : Type} [DecidableEq β] {f : α → β}
    {ks : List α} {s : List β} (hnd : (ks.map f).Nodup)
    (hns : ∀ y ∈ ks, f y ∉ s) : dedupBy f ks s = ks := by
  induction ks generalizing s with
  | nil => rfl
  | cons k ks ih =>
      rw [List.map_cons, List.nodup_cons] at hnd
      rw [dedupBy, if_neg (hns k (List.mem_cons_self _ _))]
      refine congrArg (k :: ·) (ih hnd.2 ?_)
      intro y hy
      rw [List.mem_cons]
      rintro (h | h)
      · exact hnd.1 (h ▸ List.mem_map_of_mem f hy)
      · exact hns y (List.mem_cons_of_mem _ hy) h

theorem dedupBy_idem {α β : Type} [DecidableEq β] (f : α → β) (xs : List α) :
    dedupBy f (dedupBy f xs []) [] = dedupBy f xs [] := by
  refine dedupBy_of_nodup (dedupBy_keys_nodup f xs []) ?_
  intro y _ hy
  simp at hy

theorem dedupBy_covers {α β : Type} [DecidableEq β] (f : α → β)
    (xs : List α) (s : List β) :
    ∀ x ∈ xs, f x ∈ s ∨ f x ∈ (dedupBy f xs s).map f := by
  induction xs generalizing s with
  | nil => intro x hx; simp at hx
  | cons x xs ih =>
      intro z hz
      by_cases hx : f x ∈ s
      · rw [dedupBy, if_pos hx]
        rcases List.mem_cons.mp hz with rfl | h
        · exact Or.inl hx
        · exact ih s z h
      · rw [dedupBy, if_neg hx, List.map_cons]
        rcases List.mem_cons.mp hz with rfl | h
        · exact Or.inr (List.mem_cons_self _ _)
        · rcases ih (f x :: s) z h with hmem | hmem
          · rcases List.mem_cons.mp hmem with he | he
            · exact Or.inr (he ▸ List.mem_cons_self _ _)
            · exact Or.inl he
          · exact Or.inr (List.mem_cons_of_mem _ hmem)

theorem dedupBy_all_seen {α β : Type} [DecidableEq β] {f : α → β}
    {ys : List α} {s : List β} (h : ∀ y ∈ ys, f y ∈ s) :
    dedupBy f ys s = [] := by
  induction ys with
  | nil => rfl
  | cons y ys ih =>
      rw [dedupBy, if_pos (h y (List.mem_cons_self _ _))]
      exact ih (fun z hz => h z (List.mem_cons_of_mem _ hz))

/-- Appending rows whose keys all already occur and re-deduplicating is a
no-op: the core of `drop_duplicates` idempotence. -/
theorem dedupBy_absorb {α β : Type} [DecidableEq β] (f : α → β)
    (xs ys : List α) (h : ∀ y ∈ ys, f y ∈ xs.map f) :
    dedupBy f (dedupBy f xs [] ++ ys) [] = dedupBy f xs [] := by
  rw [dedupBy_append, dedupBy_idem]
  have habs : dedupBy f ys ((dedupBy f xs []).map f ++ []) = [] := by
    refine dedupBy_all_seen ?_
    intro y hy
    rcases List.mem_map.mp (h y hy) with ⟨x, hx, hfx⟩
    rcases dedupBy_covers f xs [] x hx with hc | hc
    · simp at hc
    · rw [List.append_nil]
      exact hfx ▸ hc
  rw [habs, List.append_nil]

theorem dedupBy_first_occurrence {α β : Type} [DecidableEq β] {f : α → β}
    {xs : List α} {s : List β} :
    ∀ y ∈ dedupBy f xs s, xs.find? (fun x => decide (f x = f y)) = some y := by
  induction xs generalizing s with
  | nil => intro y hy; simp [dedupBy] at hy
  | cons x xs ih =>
      intro y hy
      by_cases hx : f x ∈ s
      · rw [dedupBy, if_pos hx] at hy
        have hne : f x ≠ f y := fun he => dedupBy_key_not_seen hy (he ▸ hx)
        simp only [List.find?_cons, decide_eq_false hne]
        exact ih y hy
      · rw [dedupBy, if_neg hx] at hy
        rcases List.mem_cons.mp hy with rfl | h
        · simp [List.find?_cons]
        · have hne : f x ≠ f y := fun he =>
            dedupBy_key_not_seen h (he ▸ List.mem_cons_self _ _)
          simp only [List.find?_cons, decide_eq_false hne]
          exact ih y h

/-- Value of a list of decimal digit characters; `none` if the list is empty
or contains a non-digit. -/
def natOfDigits : List Char → Option Nat
  | [] => none
  | cs =>
      cs.foldl
        (fun acc c =>
          match acc with
          | none => none
          | some n => if c.isDigit then some (10 * n + (c.toNat - 48)) else none)
        (some 0)

/-- Model of float parsing as used by `pandas.to_numeric(errors="coerce")`
and Python `float()` for plain decimal notation: optional sign, integer
part, optional fractional part.  Values are represented exactly as
rationals.  Unparseable strings give `none`. -/
def parseRat (s0 : String) : Option ℚ :=
  let s := pyStrip s0
  let (neg, t) :=
    match s.data with
    | '-' :: rest => (true, rest)
    | '+' :: rest => (false, rest)
    | cs => (false, cs)
  let signed : ℚ → ℚ := fun q => if neg then -q else q
  match splitOnCharAux '.' t [] with
  | [intPart] => (natOfDigits intPart).map (fun n => signed (mkRat n 1))
  | [intPart, fracPart] =>
      if intPart.isEmpty ∧ fracPart.isEmpty then none
      else
        match (if intPart.isEmpty then some 0 else natOfDigits intPart),
              (if fracPart.isEmpty then some 0 else natOfDigits fracPart) with
        | some ip, some fp =>
            some (signed
              (mkRat (ip * 10 ^ fracPart.length + fp) (10 ^ fracPart.length)))
        | _, _ => none
  | _ => none

/-- Model of `pandas.to_datetime(errors="coerce")` restricted to the
ISO `YYYY-MM-DD` format used by the device exports; anything else
coerces to missing (NaT). -/
def parseISODate (s : String) : Option (Nat × Nat × Nat) :=
  match splitOnChar '-' (pyStrip s) with
  | [y, m, d] =>
      match natOfDigits y.data, natOfDigits m.data, natOfDigits d.data with
      | some yn, some mn, some dn =>
          if y.length = 4 ∧ 1 ≤ mn ∧ mn ≤ 12 ∧ 1 ≤ dn ∧ dn ≤ 31 then
            some (yn, mn, dn)
          else none
      | _, _, _ => none
  | _ => none

/-- Coercion of one cell by `pd.to_numeric(errors="coerce")`: numbers stay,
parseable strings become numbers, everything else becomes missing. -/
def toNumericCoerce : Cell → Cell
  | Cell.num q => Cell.num q
  | Cell.str s =>
      match parseRat s with
      | some q => Cell.num q
      | none => Cell.na
  | _ => Cell.na

/-- Coercion of one cell by `pd.to_datetime(errors="coerce")` followed by
`.dt.date`: parseable date strings become dates, everything else missing. -/
def toDateCoerce : Cell → Cell
  | Cell.date y m d => Cell.date y m d
  | Cell.str s =>
      match parseISODate s with
      | some (y, m, d) => Cell.date y m d
      | none => Cell.na
  | _ => Cell.na

/-- Model of `Series.astype(str).str.strip()`: missing values print as the
string "nan", strings are trimmed. -/
def astypeStrStrip : Cell → Cell
  | Cell.na => Cell.str "nan"
  | Cell.str s => Cell.str (pyStrip s)
  | Cell.num q => Cell.str (toString q)
  | Cell.date y m d =>
      Cell.str (toString y ++ "-" ++ toString m ++ "-" ++ toString d)

/-- One raw CSV field as produced by `pd.read_csv`: the empty field is
missing, everything else is kept as a raw string. -/
def rawCell (s : String) : Cell :=
  if s.isEmpty then Cell.na else Cell.str s

/-- Pad or cut a row to the header width (missing cells for short rows), as
`pd.read_csv` aligns data lines against the header. -/
def padTo (n : Nat) (l : List Cell) : List Cell :=
  (l ++ List.replicate n Cell.na).take n

/-- Model of `pd.read_csv(..., skiprows=4)` on the decoded lines of the
upload, for simple unquoted data: line 5 (0-indexed line 4) is the header,
subsequent non-blank lines are data rows.  `read_csv` is called without a
`sep` argument in both app variants, so fields are split on the pandas
default separator, a comma — there is no delimiter detection. -/
def read_csv_skip4 (lines : List String) : DF :=
  match lines.drop 4 with
  | [] => ⟨[], []⟩
  | header :: dataLines =>
      let cols := splitOnChar ',' header
      ⟨cols,
        (dataLines.filter (fun l => ¬(pyStrip l).isEmpty)).map
          (fun l => padTo cols.length ((splitOnChar ',' l).map rawCell))⟩

/-- Replace every cell matching one of the given raw strings by missing:
model of `df.replace({"－": np.nan, "-": np.nan})` in `load_rapsodo_csv`. -/
def replaceSentinels (sentinels : List String) (df : DF) : DF :=
  ⟨df.cols,
    df.rows.map (fun r =>
      r.map (fun c =>
        match c with
        | Cell.str s => if s ∈ sentinels then Cell.na else Cell.str s
        | c => c))⟩

/-- Apply a cell transformation to one named column (`df[c] = f(df[c])`);
a no-op if the column is absent. -/
def mapCol (df : DF) (c : String) (g : Cell → Cell) : DF :=
  match colIdx df.cols c with
  | none => df
  | some i => ⟨df.cols, df.rows.map (fun r => r.set i (g (r.getD i Cell.na)))⟩

/-- Add a new column with a constant value (`df[c] = v` for absent `c`);
pandas appends it after the existing columns. -/
def addConstCol (df : DF) (c : String) (v : Cell) : DF :=
  ⟨df.cols ++ [c], df.rows.map (fun r => r ++ [v])⟩

/-- The numeric measurement columns coerced by `load_rapsodo_csv`
(src/app.py line 92). -/
def NUMERIC_COLS : List String :=
  ["Velocity", "Total Spin", "Spin Efficiency", "VB", "HB"]

/-- The date step of `load_rapsodo_csv` (src/app.py lines 82-83). -/
def load_stage_date (df : DF) : DF :=
  if df.cols.contains "Date" then mapCol df "Date" toDateCoerce else df

/-- The pitch-type step of `load_rapsodo_csv` (src/app.py lines 86-89):
trim an existing "Pitch Type" column, or add a constant "Unknown" one. -/
def load_stage_pitch (df : DF) : DF :=
  if df.cols.contains "Pitch Type" then mapCol df "Pitch Type" astypeStrStrip
  else addConstCol df "Pitch Type" (Cell.str "Unknown")

/-- The numeric step of `load_rapsodo_csv` (src/app.py lines 92-94). -/
def load_stage_numeric (df : DF) : DF :=
  NUMERIC_COLS.foldl
    (fun d c => if d.cols.contains c then mapCol d c toNumericCoerce else d) df

/-- Shallow embedding of `load_rapsodo_csv` (src/app.py lines 74-96):
read with the header on line 5, turn the sentinel hyphens into missing
values, parse the date column, trim the pitch type (adding a constant
"Unknown" column when absent), and coerce the numeric columns. -/
def load_rapsodo_csv (lines : List String) : DF :=
  load_stage_numeric
    (load_stage_pitch
      (load_stage_date (replaceSentinels ["－", "-"] (read_csv_skip4 lines))))

/-- The fixed key-column list of `append_to_store` (src/app.py line 118).
Note that it omits "Spin Efficiency". -/
def KEY_COLS : List String :=
  ["Date", "Pitch Type", "Velocity", "Total Spin", "HB", "VB"]

/-- Model of `pd.concat([old, new], ignore_index=True)`: the union of the
columns (new ones appended in order), with each row realigned by column
name and missing cells for absent columns. -/
def reindexRow (oldCols newCols : List String) (r : List Cell) : List Cell :=
  newCols.map (fun c =>
    match colIdx oldCols c with
    | some i => r.getD i Cell.na
    | none => Cell.na)

def concatDF (a b : DF) : DF :=
  let cols := a.cols ++ b.cols.filter (fun c => ¬a.cols.contains c)
  ⟨cols, a.rows.map (reindexRow a.cols cols) ++ b.rows.map (reindexRow b.cols cols)⟩

/-- Model of `drop_duplicates(subset=keys)` with the default `keep="first"`. -/
def dropDuplicates (df : DF) (keys : List String) : DF :=
  ⟨df.cols, dedupBy (projRow df.cols keys) df.rows []⟩

/-- The concatenation step of `append_to_store`: existing store contents
(if any) followed by the new batch. -/
def mergedOf (store : Option DF) (new : DF) : DF :=
  match store with
  | some old => concatDF old new
  | none => new

/-- Shallow embedding of `append_to_store` (src/app.py lines 109-123): load
the prior store for the pitcher (modelled as `store`), concatenate the new
batch, deduplicate on the key columns present, and persist the result by
full rewrite.  The returned frame is the new store content. -/
def append_to_store (store : Option DF) (new : DF) : DF :=
  let merged := mergedOf store new
  let key_cols := KEY_COLS.filter (fun c => merged.cols.contains c)
  if key_cols.isEmpty then merged else dropDuplicates merged key_cols

/-- Field splitting of one line by Python `csv.reader` with the default
dialect: fields separated by commas, double-quoted fields may contain
commas, a doubled quote inside a quoted field stands for one quote.  The
fuel argument (at least the input length) keeps the recursion structural. -/
def csvFields : Nat → List Char → Bool → List Char → List String
  | 0, _, _, cur => [String.mk cur.reverse]
  | _ + 1, [], _, cur => [String.mk cur.reverse]
  | fuel + 1, c :: rest, true, cur =>
      if c = '"' then
        match rest with
        | '"' :: rest2 => csvFields fuel rest2 true ('"' :: cur)
        | rest2 => csvFields fuel rest2 false cur
      else csvFields fuel rest true (c :: cur)
  | fuel + 1, c :: rest, false, cur =>
      if c = ',' then String.mk cur.reverse :: csvFields fuel rest false []
      else if c = '"' then csvFields fuel rest true cur
      else csvFields fuel rest false (c :: cur)

def csvParseLine (s : String) : List String :=
  csvFields (s.data.length + 1) s.data false []

/-- Rows yielded by `csv.reader([line])`: a blank line yields no row,
anything else yields its field list. -/
def csvReaderRows (s : String) : List (List String) :=
  if s.isEmpty then [] else [csvParseLine s]

/-- Subject-name extraction of src/ritsumeikan_app.py lines 57-62: the
second CSV field of line 3, trimmed, with "Unknown" for a short input, a
malformed line, or an empty field (`row3[1].strip() or "Unknown"`). -/
def extract_player_name (lines : List String) : String :=
  if lines.length ≥ 3 then
    match csvReaderRows (lines.getD 2 "") with
    | [] => "Unknown"
    | row3 :: _ =>
        if row3.length ≥ 2 then
          let n := pyStrip (row3.getD 1 "")
          if n.isEmpty then "Unknown" else n
        else "Unknown"
  else "Unknown"

/-- Subject-name extraction of src/ritumeikan_app.py lines 25-31, which
runs inside the enclosing try block: `next(reader)` without a default
raises StopIteration on a blank line 3 (modelled as the error case), and
the trimmed second field is returned as-is, without the `or "Unknown"`
fallback of the ritsumeikan variant. -/
def extract_player_name_ritumeikan (lines : List String) : Except Unit String :=
  if lines.length ≥ 3 then
    match csvReaderRows (lines.getD 2 "") with
    | [] => Except.error ()
    | row3 :: _ =>
        if row3.length ≥ 2 then Except.ok (pyStrip (row3.getD 1 ""))
        else Except.ok "Unknown"
  else Except.ok "Unknown"

/-- Case-insensitive match of a literal pattern at the head of the input;
returns the rest on success. -/
def matchCI : List Char → List Char → Option (List Char)
  | [], s => some s
  | _, [] => none
  | p :: ps, c :: cs => if p.toLower = c.toLower then matchCI ps cs else none

/-- Match of the regular expression
`Player\s*Name\s*[:,]?\s*(.*)$` (case-insensitive) at the head of the
input, returning the text captured by the group. -/
def matchPlayerLabelAt (s : List Char) : Option (List Char) :=
  match matchCI "player".data s with
  | none => none
  | some s1 =>
      let s2 := s1.dropWhile isWS
      match matchCI "name".data s2 with
      | none => none
      | some s3 =>
          let s4 := s3.dropWhile isWS
          let s5 := match s4 with
            | ':' :: rest => rest
            | ',' :: rest => rest
            | rest => rest
          some (s5.dropWhile isWS)

/-- Model of `re.search` for the pattern above: leftmost position at which the
label matches, with the captured group running to the end of the line. -/
def searchPlayerLabel : List Char → Option (List Char)
  | [] => none
  | s@(_ :: rest) =>
      match matchPlayerLabelAt s with
      | some g => some g
      | none => searchPlayerLabel rest

/-- Subject-name extraction of src/app.py lines 57-67
(`read_player_name_from_csv_bytes` after decoding): line 3 is stripped of
whitespace and quotes; if a "Player Name" label is found the labelled rest
of the line is returned (or "Unknown" when empty), otherwise the whole
stripped line (or "Unknown" when empty). -/
def read_player_name_from_text (lines : List String) : String :=
  if lines.length < 3 then "Unknown"
  else
    let line3 := pyStripChar '"' (pyStrip (lines.getD 2 ""))
    match searchPlayerLabel line3.data with
    | some g =>
        let name := pyStripChar '"' (pyStrip (String.mk g))
        if name.isEmpty then "Unknown" else name
    | none => if line3.isEmpty then "Unknown" else line3

/-- Header cleanup of src/ritsumeikan_app.py line 68:
`c.strip().replace('"', "")`. -/
def cleanHeader (c : String) : String :=
  String.mk ((pyStrip c).data.filter (fun ch => ¬(ch = '"')))

/-- The column rename table of src/ritsumeikan_app.py lines 70-80. -/
def RENAME_DICT : List (String × String) :=
  [("Pitch Type", "球種"), ("Velocity", "球速"), ("Total Spin", "回転数"),
   ("True Spin (release)", "トゥルースピン"),
   ("Spin Efficiency (release)", "回転効率"),
   ("VB (trajectory)", "高さ変化"), ("HB (trajectory)", "横変化"),
   ("Date", "日付"), ("Is Strike", "判定")]

def renameCols (df : DF) : DF :=
  ⟨df.cols.map (fun c =>
      match RENAME_DICT.lookup c with
      | some c' => c'
      | none => c),
    df.rows⟩

/-- The required-column check of src/ritsumeikan_app.py lines 84-87: the
first missing column among 球種, 球速, 日付 raises
`ValueError("必要な列が見つかりません: " + col)`. -/
def requiredCheckMsg (df : DF) : Option String :=
  ["球種", "球速", "日付"].findSome? (fun col =>
    if df.cols.contains col then none
    else some ("必要な列が見つかりません: " ++ col))

/-- Row filter of line 90: `df[~df["球種"].isin(["-", "Other"])]`. -/
def filterPitch (df : DF) : DF :=
  ⟨df.cols,
    df.rows.filter (fun r =>
      decide (cellAt df.cols "球種" r ≠ Cell.str "-" ∧
              cellAt df.cols "球種" r ≠ Cell.str "Other"))⟩

/-- Lines 93-94: a `datetime` column parsed from 日付, and 日付 replaced by
its calendar date. -/
def addDatetime (df : DF) : DF :=
  let rows := df.rows.map (fun r =>
    let dt := toDateCoerce (cellAt df.cols "日付" r)
    (match colIdx df.cols "日付" with
     | some i => r.set i dt
     | none => r) ++ [dt])
  ⟨df.cols ++ ["datetime"], rows⟩

/-- Lines 97-100: the ストライク数 column, `{Y: 1, N: 0}` with missing
mapped to 0 when 判定 exists, constant 0 otherwise. -/
def addStrike (df : DF) : DF :=
  if df.cols.contains "判定" then
    ⟨df.cols ++ ["ストライク数"],
      df.rows.map (fun r =>
        r ++ [match cellAt df.cols "判定" r with
              | Cell.str s => if s = "Y" then Cell.num 1
                              else if s = "N" then Cell.num 0 else Cell.num 0
              | _ => Cell.num 0])⟩
  else addConstCol df "ストライク数" (Cell.num 0)

/-- Lines 103-106: per numeric column, `"-"` replaced by missing and then
`to_numeric(errors="coerce")`. -/
def numericConvert (df : DF) : DF :=
  ["球速", "回転数", "トゥルースピン", "回転効率", "高さ変化", "横変化"].foldl
    (fun d col =>
      if d.cols.contains col then
        mapCol d col (fun c =>
          toNumericCoerce (if c = Cell.str "-" then Cell.na else c))
      else d)
    df

/-- Line 109: `df.dropna(subset=cols)` — keep rows with no missing value in
any of the subset columns. -/
def dropnaSubset (df : DF) (subset : List String) : DF :=
  ⟨df.cols,
    df.rows.filter (fun r =>
      subset.all (fun c => decide (cellAt df.cols c r ≠ Cell.na)))⟩

/-- Shallow embedding of the body of the try block of `process_data`
(src/ritsumeikan_app.py lines 51-111), on the decoded lines of one file:
name extraction, read with header on line 5, header cleanup and rename,
required-column check (error short-circuits to the except branch), pitch
filter, date parsing, strike column, numeric coercion, and the final
`dropna(subset=["球速", "球種", "datetime"])`. -/
def process_data_core (lines : List String) : Except String (String × DF) :=
  let player_name := extract_player_name lines
  let df := read_csv_skip4 lines
  let df : DF := ⟨df.cols.map cleanHeader, df.rows⟩
  let df := renameCols df
  match requiredCheckMsg df with
  | some msg => Except.error msg
  | none =>
      let df := filterPitch df
      let df := addDatetime df
      let df := addStrike df
      let df := numericConvert df
      let df := dropnaSubset df ["球速", "球種", "datetime"]
      Except.ok (player_name, df)

/-- The full `process_data` including the except branch (lines 113-115): on any
error the message is shown with `st.error` and `("Error", file_id, empty)`
is returned, so the batch keeps running. -/
def process_data (filename : String) (lines : List String) :
    String × String × DF :=
  let file_id := String.mk (filename.data.take 7)
  match process_data_core lines with
  | Except.ok (p, df) => (p, file_id, df)
  | Except.error _ => ("Error", file_id, ⟨[], []⟩)

/-- The per-file loop of `main` (src/ritsumeikan_app.py lines 154-155):
every uploaded file is processed independently, in order. -/
def processBatch (files : List (String × List String)) :
    List (String × String × DF) :=
  files.map (fun f => process_data f.1 f.2)

/-- Continuation-byte test for UTF-8 decoding. -/
def isCont (n : Nat) : Bool := 128 ≤ n ∧ n < 192

/-- Strict UTF-8 decoding of a byte list, the model of Python
`bytes.decode("utf-8")`: `none` on any malformed sequence. -/
def utf8Strict : List Nat → Option (List Char)
  | [] => some []
  | b :: rest =>
      if b < 128 then (utf8Strict rest).map (Char.ofNat b :: ·)
      else if 194 ≤ b ∧ b ≤ 223 then
        match rest with
        | c1 :: rest2 =>
            if isCont c1 then
              (utf8Strict rest2).map (Char.ofNat ((b - 192) * 64 + (c1 - 128)) :: ·)
            else none
        | [] => none
      else if 224 ≤ b ∧ b ≤ 239 then
        match rest with
        | c1 :: c2 :: rest2 =>
            if (if b = 224 then 160 ≤ c1 ∧ c1 < 192
                else if b = 237 then 128 ≤ c1 ∧ c1 < 160
                else isCont c1) ∧ isCont c2 then
              (utf8Strict rest2).map
                (Char.ofNat ((b - 224) * 4096 + (c1 - 128) * 64 + (c2 - 128)) :: ·)
            else none
        | _ => none
      else if 240 ≤ b ∧ b ≤ 244 then
        match rest with
        | c1 :: c2 :: c3 :: rest2 =>
            if (if b = 240 then 144 ≤ c1 ∧ c1 < 192
                else if b = 244 then 128 ≤ c1 ∧ c1 < 144
                else isCont c1) ∧ isCont c2 ∧ isCont c3 then
              (utf8Strict rest2).map
                (Char.ofNat ((b - 240) * 262144 + (c1 - 128) * 4096 +
                             (c2 - 128) * 64 + (c3 - 128)) :: ·)
            else none
        | _ => none
      else none

/-- Lenient UTF-8 decoding with an error action: on a malformed byte, emit
`onErr` (empty for Python `errors="ignore"`, a replacement character for
`errors="replace"`) and resume at the next byte.  The fuel argument (at
least the input length) keeps the recursion structural. -/
def utf8Lenient (onErr : List Char) : Nat → List Nat → List Char
  | 0, _ => []
  | _ + 1, [] => []
  | fuel + 1, b :: rest =>
      if b < 128 then Char.ofNat b :: utf8Lenient onErr fuel rest
      else if 194 ≤ b ∧ b ≤ 223 then
        match rest with
        | c1 :: rest2 =>
            if isCont c1 then
              Char.ofNat ((b - 192) * 64 + (c1 - 128)) ::
                utf8Lenient onErr fuel rest2
            else onErr ++ utf8Lenient onErr fuel (c1 :: rest2)
        | [] => onErr
      else if 224 ≤ b ∧ b ≤ 239 then
        match rest with
        | c1 :: c2 :: rest2 =>
            if (if b = 224 then 160 ≤ c1 ∧ c1 < 192
                else if b = 237 then 128 ≤ c1 ∧ c1 < 160
                else isCont c1) ∧ isCont c2 then
              Char.ofNat ((b - 224) * 4096 + (c1 - 128) * 64 + (c2 - 128)) ::
                utf8Lenient onErr fuel rest2
            else onErr ++ utf8Lenient onErr fuel (c1 :: c2 :: rest2)
        | rest2 => onErr ++ utf8Lenient onErr fuel rest2
      else if 240 ≤ b ∧ b ≤ 244 then
        match rest with
        | c1 :: c2 :: c3 :: rest2 =>
            if (if b = 240 then 144 ≤ c1 ∧ c1 < 192
                else if b = 244 then 128 ≤ c1 ∧ c1 < 144
                else isCont c1) ∧ isCont c2 ∧ isCont c3 then
              Char.ofNat ((b - 240) * 262144 + (c1 - 128) * 4096 +
                          (c2 - 128) * 64 + (c3 - 128)) ::
                utf8Lenient onErr fuel rest2
            else onErr ++ utf8Lenient onErr fuel (c1 :: c2 :: c3 :: rest2)
        | rest2 => onErr ++ utf8Lenient onErr fuel rest2
      else onErr ++ utf8Lenient onErr fuel rest

/-- Model of `b.decode("utf-8", errors="ignore")`: malformed data is
dropped, nothing is raised. -/
def utf8DecodeIgnore (b : List Nat) : String :=
  String.mk (utf8Lenient [] (b.length + 1) b)

/-- Modelled from the spec: decoding "with substitution of invalid
sequences", i.e. Python `errors="replace"`, which emits U+FFFD for
malformed data.  No such call exists in the source (both variants use
`errors="ignore"`); this definition exists to compare the spec's wording
with the source behaviour. -/
def utf8DecodeReplace (b : List Nat) : String :=
  String.mk (utf8Lenient [Char.ofNat 65533] (b.length + 1) b)

/-- Shallow embedding of `_decode_bytes` (src/ritsumeikan_app.py lines
37-45): try utf-8, cp932, shift_jis in order and return the first decode
that succeeds together with the encoding name; if all fail, fall back to
`decode("utf-8", errors="ignore")`.  The two legacy codecs are external
library functions and enter as parameters. -/
def _decode_bytes (cp932 shift_jis : List Nat → Option String)
    (b : List Nat) : String × String :=
  match utf8Strict b with
  | some t => (String.mk t, "utf-8")
  | none =>
      match cp932 b with
      | some t => (t, "cp932")
      | none =>
          match shift_jis b with
          | some t => (t, "shift_jis")
          | none => (utf8DecodeIgnore b, "utf-8(ignore)")

/-- Outcome of one storage write: success, or an I/O failure after `k` rows
of the new content have reached the file. -/
inductive WriteOutcome where
  | ok : WriteOutcome
  | fail : Nat → WriteOutcome

/-- Model of `merged.to_parquet(path, index=False)` (src/app.py line 122):
the new content is written directly at the store path — there is no
temporary file and no rename in the source — so the file is truncated and
rewritten in place.  On success the store holds exactly the new frame; on
an I/O failure after `k` rows the store holds a partial new file, and the
error propagates (second component `true`). -/
def writeStoreDirect (df : DF) (o : WriteOutcome) : Option DF × Bool :=
  match o with
  | WriteOutcome.ok => (some df, false)
  | WriteOutcome.fail k => (some ⟨df.cols, df.rows.take k⟩, true)

/-- One full `append_to_store` call against a store state, including the
persistence step, under a given write outcome. -/
def append_run (store : Option DF) (new : DF) (o : WriteOutcome) :
    Option DF × Bool :=
  writeStoreDirect (append_to_store store new) o

/-- Modelled from the spec: the delimiter auto-detection described in
section 4.2 — among comma, tab and semicolon, the delimiter with the
majority occurrence count over a sample of the leading non-blank lines
(here the first five).  No such heuristic exists in the source: both
variants call `pd.read_csv` without a `sep` argument, which always uses a
comma.  This definition exists to compare the spec's wording with the
source behaviour. -/
def detectDelimiter_spec (lines : List String) : Char :=
  let sample := (lines.filter (fun l => ¬(pyStrip l).isEmpty)).take 5
  let cnt := fun (c : Char) => (sample.map (fun l => l.data.count c)).sum
  let cands := [(',', cnt ','), ('\t', cnt '\t'), (';', cnt ';')]
  (cands.foldl (fun best x => if x.2 > best.2 then x else best)
    (',', cnt ',')).1

/-- The separator `pd.read_csv` uses in both app variants: the call passes
no `sep`, so the pandas default comma applies unconditionally. -/
def read_csv_sep : Char := ','

theorem getD_eq_get {α : Type} (l : List α) (n : Nat) (d : α)
    (h : n < l.length) : l.getD n d = l.get ⟨n, h⟩ := by
  induction l generalizing n with
  | nil => simp at h
  | cons a l ih =>
      cases n with
      | zero => rfl
      | succ m => exact ih m (Nat.lt_of_succ_lt_succ h)

theorem getD_set_ne {α : Type} (l : List α) (i j : Nat) (x d : α)
    (h : i ≠ j) : (l.set i x).getD j d = l.getD j d := by
  induction l generalizing i j with
  | nil => simp
  | cons a l ih =>
      cases i with
      | zero =>
          cases j with
          | zero => exact absurd rfl h
          | succ m => rfl
      | succ k =>
          cases j with
          | zero => rfl
          | succ m =>
              exact ih k m (fun he => h (by rw [he]))

theorem getD_append_length {α : Type} (l : List α) (v d : α) :
    (l ++ [v]).getD l.length d = v := by
  induction l with
  | nil => rfl
  | cons a l ih => exact ih

theorem colIdx_self (cols : List String) (hnd : cols.Nodup) (i : Nat)
    (hi : i < cols.length) : colIdx cols (cols.get ⟨i, hi⟩) = some i := by
  induction cols generalizing i with
  | nil => simp at hi
  | cons c cs ih =>
      rw [List.nodup_cons] at hnd
      cases i with
      | zero => simp [colIdx]
      | succ j =>
          have hj : j < cs.length := Nat.lt_of_succ_lt_succ hi
          have hne : c ≠ cs.get ⟨j, hj⟩ :=
            fun he => hnd.1 (he ▸ List.get_mem cs j hj)
          rw [colIdx]
          simp only [List.get_cons_succ]
          rw [if_neg hne, ih hnd.2 j hj]
          rfl

theorem colIdx_lt_length {cols : List String} {c : String} {j : Nat}
    (h : colIdx cols c = some j) : j < cols.length := by
  induction cols generalizing j with
  | nil => simp [colIdx] at h
  | cons c' cs ih =>
      rw [colIdx] at h
      by_cases he : c' = c
      · rw [if_pos he] at h
        cases h
        simp
      · rw [if_neg he] at h
        match hc : colIdx cs c with
        | none => rw [hc] at h; cases h
        | some k =>
            rw [hc] at h
            cases h
            exact Nat.succ_lt_succ (ih hc)

theorem colIdx_get {cols : List String} {c : String} {j : Nat}
    (h : colIdx cols c = some j) (hj : j < cols.length) :
    cols.get ⟨j, hj⟩ = c := by
  induction cols generalizing j with
  | nil => simp [colIdx] at h
  | cons c' cs ih =>
      rw [colIdx] at h
      by_cases he : c' = c
      · rw [if_pos he] at h
        cases h
        exact he
      · rw [if_neg he] at h
        match hc : colIdx cs c with
        | none => rw [hc] at h; cases h
        | some k =>
            rw [hc] at h
            cases h
            exact ih hc (Nat.lt_of_succ_lt_succ hj)

theorem colIdx_none_of_not_mem {cols : List String} {c : String}
    (h : c ∉ cols) : colIdx cols c = none := by
  induction cols with
  | nil => rfl
  | cons c' cs ih =>
      have hne : ¬(c' = c) := fun he => h (he ▸ List.mem_cons_self c' cs)
      rw [colIdx, if_neg hne, ih (fun hc => h (List.mem_cons_of_mem _ hc))]
      rfl

theorem colIdx_append_singleton {cols : List String} {c : String}
    (h : c ∉ cols) : colIdx (cols ++ [c]) c = some cols.length := by
  induction cols with
  | nil => simp [colIdx]
  | cons c' cs ih =>
      have hne : ¬(c' = c) := fun he => h (he ▸ List.mem_cons_self c' cs)
      rw [List.cons_append, colIdx, if_neg hne,
        ih (fun hc => h (List.mem_cons_of_mem _ hc))]
      rfl

theorem reindexRow_length (oldCols newCols : List String) (r : List Cell) :
    (reindexRow oldCols newCols r).length = newCols.length := by
  simp [reindexRow]

theorem reindexRow_self (cols : List String) (r : List Cell)
    (hnd : cols.Nodup) (hr : r.length = cols.length) :
    reindexRow cols cols r = r := by
  apply List.ext_get
  · simp [reindexRow, hr]
  · intro n h1 h2
    have hn : n < cols.length := by simpa [reindexRow] using h1
    simp only [reindexRow, List.get_map]
    have hself : colIdx cols (cols.get ⟨n, hn⟩) = some n :=
      colIdx_self cols hnd n hn
    simp only [hself]
    exact getD_eq_get r n Cell.na h2

theorem cellAt_set_ne {cols : List String} {c c' : String} {i : Nat}
    (hc' : colIdx cols c' = some i) (hne : c ≠ c') (r : List Cell)
    (x : Cell) : cellAt cols c (r.set i x) = cellAt cols c r := by
  rw [cellAt, cellAt]
  match hc : colIdx cols c with
  | none => rfl
  | some j =>
      have hij : i ≠ j := by
        intro he
        subst he
        have hi := colIdx_lt_length hc'
        have h1 := colIdx_get hc' hi
        have h2 := colIdx_get hc hi
        exact hne (h2 ▸ h1 ▸ rfl)
      exact getD_set_ne r i j x Cell.na hij

theorem cellAt_append_new {cols : List String} {c : String}
    (h : c ∉ cols) (r : List Cell) (v : Cell) (hr : r.length = cols.length) :
    cellAt (cols ++ [c]) c (r ++ [v]) = v := by
  rw [cellAt, colIdx_append_singleton h, ← hr]
  exact getD_append_length r v Cell.na

theorem concatDF_cols_of_subset {a b : DF} (h : ∀ c ∈ b.cols, c ∈ a.cols) :
    (concatDF a b).cols = a.cols := by
  have hnil : b.cols.filter (fun c => ¬a.cols.contains c) = [] := by
    rw [List.filter_eq_nil_iff]
    intro c hc
    have hc2 : a.cols.contains c = true := List.elem_iff.mpr (h c hc)
    simp [hc2, h c hc]
  show a.cols ++ b.cols.filter (fun c => ¬a.cols.contains c) = a.cols
  rw [hnil, List.append_nil]

theorem concatDF_rows (a b : DF) :
    (concatDF a b).rows =
      a.rows.map (reindexRow a.cols (concatDF a b).cols) ++
      b.rows.map (reindexRow b.cols (concatDF a b).cols) := rfl

theorem mem_concatDF_cols_right {a b : DF} {c : String} (h : c ∈ b.cols) :
    c ∈ (concatDF a b).cols := by
  by_cases ha : c ∈ a.cols
  · exact List.mem_append_left _ ha
  · refine List.mem_append_right _ ?_
    rw [List.mem_filter]
    refine ⟨h, ?_⟩
    simp only [decide_not, Bool.not_eq_true', decide_eq_false_iff_not]
    exact fun hc => ha (List.elem_iff.mp hc)

theorem concatDF_cols_nodup {a b : DF} (ha : a.cols.Nodup)
    (hb : b.cols.Nodup) : (concatDF a b).cols.Nodup := by
  rw [concatDF]
  refine List.Nodup.append ha (hb.filter _) ?_
  intro c hca hcb
  rw [List.mem_filter] at hcb
  have h2 := hcb.2
  simp only [decide_not, Bool.not_eq_true', decide_eq_false_iff_not] at h2
  exact h2 (List.elem_iff.mpr hca)

theorem concatDF_rows_length {a b : DF} :
    ∀ r ∈ (concatDF a b).rows, r.length = (concatDF a b).cols.length := by
  intro r hr
  rw [concatDF_rows] at hr
  rcases List.mem_append.mp hr with h | h <;>
    · rcases List.mem_map.mp h with ⟨r0, _, hre⟩
      rw [← hre]
      exact reindexRow_length _ _ _

theorem keyFilter_not_empty {cols : List String} (h : "Pitch Type" ∈ cols) :
    (KEY_COLS.filter (fun c => cols.contains c)).isEmpty = false := by
  have hmem : "Pitch Type" ∈ KEY_COLS.filter (fun c => cols.contains c) := by
    refine List.mem_filter.mpr ⟨?_, ?_⟩
    · simp [KEY_COLS]
    · exact List.elem_iff.mpr h
  cases hn : KEY_COLS.filter (fun c => cols.contains c) with
  | nil => rw [hn] at hmem; simp at hmem
  | cons a l => rfl

theorem append_to_store_eq_dedup {store : Option DF} {X : DF}
    (hk : (KEY_COLS.filter
        (fun c => (mergedOf store X).cols.contains c)).isEmpty = false) :
    append_to_store store X =
      dropDuplicates (mergedOf store X)
        (KEY_COLS.filter (fun c => (mergedOf store X).cols.contains c)) := by
  simp only [append_to_store, hk, Bool.false_eq_true, if_false]

theorem append_step (M X : DF)
    (hnd : M.cols.Nodup)
    (hlen : ∀ r ∈ M.rows, r.length = M.cols.length)
    (hsub : ∀ c ∈ X.cols, c ∈ M.cols)
    (hkey : "Pitch Type" ∈ M.cols)
    (hXM : ∀ y ∈ X.rows.map (reindexRow X.cols M.cols),
        projRow M.cols (KEY_COLS.filter (fun c => M.cols.contains c)) y ∈
          M.rows.map
            (projRow M.cols (KEY_COLS.filter (fun c => M.cols.contains c)))) :
    append_to_store
        (some (dropDuplicates M (KEY_COLS.filter (fun c => M.cols.contains c))))
        X
      = dropDuplicates M (KEY_COLS.filter (fun c => M.cols.contains c)) := by
  have hDcols :
      (dropDuplicates M (KEY_COLS.filter (fun c => M.cols.contains c))).cols
        = M.cols := rfl
  have hsub2 : ∀ c ∈ X.cols,
      c ∈ (dropDuplicates M
        (KEY_COLS.filter (fun c => M.cols.contains c))).cols := hsub
  have hcols2 :
      (concatDF
        (dropDuplicates M (KEY_COLS.filter (fun c => M.cols.contains c)))
        X).cols = M.cols := concatDF_cols_of_subset hsub2
  have hmerged : mergedOf
      (some (dropDuplicates M (KEY_COLS.filter (fun c => M.cols.contains c))))
      X = concatDF
        (dropDuplicates M (KEY_COLS.filter (fun c => M.cols.contains c)))
        X := rfl
  have hk2 : (KEY_COLS.filter (fun c =>
      (mergedOf (some (dropDuplicates M
        (KEY_COLS.filter (fun c => M.cols.contains c)))) X).cols.contains c)
      ).isEmpty = false := by
    rw [hmerged, hcols2]
    exact keyFilter_not_empty hkey
  rw [append_to_store_eq_dedup hk2, hmerged]
  have hrowsD : ∀ r ∈ (dropDuplicates M
      (KEY_COLS.filter (fun c => M.cols.contains c))).rows,
      r.length = M.cols.length :=
    fun r hr => hlen r (dedupBy_subset hr)
  have hreD : (dropDuplicates M
      (KEY_COLS.filter (fun c => M.cols.contains c))).rows.map
        (reindexRow M.cols M.cols)
      = (dropDuplicates M
        (KEY_COLS.filter (fun c => M.cols.contains c))).rows := by
    have hpt : ∀ r ∈ (dropDuplicates M
        (KEY_COLS.filter (fun c => M.cols.contains c))).rows,
        reindexRow M.cols M.cols r = r :=
      fun r hr => reindexRow_self _ _ hnd (hrowsD r hr)
    calc (dropDuplicates M
        (KEY_COLS.filter (fun c => M.cols.contains c))).rows.map
          (reindexRow M.cols M.cols)
        = (dropDuplicates M
          (KEY_COLS.filter (fun c => M.cols.contains c))).rows.map id := by
          exact List.map_congr_left hpt
      _ = _ := List.map_id _
  have hM2rows : (concatDF
      (dropDuplicates M (KEY_COLS.filter (fun c => M.cols.contains c)))
      X).rows
      = (dropDuplicates M
          (KEY_COLS.filter (fun c => M.cols.contains c))).rows ++
        X.rows.map (reindexRow X.cols M.cols) := by
    rw [concatDF_rows, hcols2, hDcols, hreD]
  have hKeq : KEY_COLS.filter (fun c =>
      (concatDF (dropDuplicates M
        (KEY_COLS.filter (fun c => M.cols.contains c))) X).cols.contains c)
      = KEY_COLS.filter (fun c => M.cols.contains c) := by
    rw [hcols2]
  rw [hKeq]
  have hcols3 : (dropDuplicates (concatDF
      (dropDuplicates M (KEY_COLS.filter (fun c => M.cols.contains c))) X)
      (KEY_COLS.filter (fun c => M.cols.contains c))).cols
      = (dropDuplicates M
          (KEY_COLS.filter (fun c => M.cols.contains c))).cols := hcols2
  have hrows3 : (dropDuplicates (concatDF
      (dropDuplicates M (KEY_COLS.filter (fun c => M.cols.contains c))) X)
      (KEY_COLS.filter (fun c => M.cols.contains c))).rows
      = (dropDuplicates M
          (KEY_COLS.filter (fun c => M.cols.contains c))).rows := by
    show dedupBy (projRow (concatDF
        (dropDuplicates M (KEY_COLS.filter (fun c => M.cols.contains c))) X).cols
        (KEY_COLS.filter (fun c => M.cols.contains c)))
        (concatDF
          (dropDuplicates M (KEY_COLS.filter (fun c => M.cols.contains c))) X).rows
        []
      = (dropDuplicates M (KEY_COLS.filter (fun c => M.cols.contains c))).rows
    rw [hcols2, hM2rows]
    exact dedupBy_absorb _ M.rows (X.rows.map (reindexRow X.cols M.cols)) hXM
  exact DF_ext hcols3 hrows3

/-- Claim C1: for every subject key and observation batch, `append(k, X)`
followed by `append(k, X)` leaves the store with exactly the content of a
single `append(k, X)` — re-appending an already-stored batch is a no-op on
the stored content.  Proved for every starting store state and every batch
that carries the category column ("Pitch Type", which `load_rapsodo_csv`
always provides), has a duplicate-free header, and has rows matching its
header width; an existing store needs a duplicate-free header as well. -/
theorem c1_append_idempotent (s0 : Option DF) (X : DF)
    (hXnd : X.cols.Nodup)
    (hXr : ∀ r ∈ X.rows, r.length = X.cols.length)
    (hOld : ∀ old, s0 = some old → old.cols.Nodup)
    (hKey : "Pitch Type" ∈ X.cols) :
    append_to_store (some (append_to_store s0 X)) X = append_to_store s0 X := by
  cases s0 with
  | none =>
      have h1 : append_to_store none X =
          dropDuplicates X (KEY_COLS.filter (fun c => X.cols.contains c)) :=
        append_to_store_eq_dedup (keyFilter_not_empty hKey)
      rw [h1]
      refine append_step X X hXnd hXr (fun c hc => hc) hKey ?_
      intro y hy
      have hre : X.rows.map (reindexRow X.cols X.cols) = X.rows := by
        calc X.rows.map (reindexRow X.cols X.cols)
            = X.rows.map id :=
              List.map_congr_left
                (fun r hr => reindexRow_self _ _ hXnd (hXr r hr))
          _ = X.rows := List.map_id _
      rw [hre] at hy
      exact List.mem_map_of_mem _ hy
  | some old =>
      have hndM : (concatDF old X).cols.Nodup :=
        concatDF_cols_nodup (hOld old rfl) hXnd
      have hkM : "Pitch Type" ∈ (concatDF old X).cols :=
        mem_concatDF_cols_right hKey
      have h1 : append_to_store (some old) X =
          dropDuplicates (concatDF old X)
            (KEY_COLS.filter (fun c => (concatDF old X).cols.contains c)) :=
        append_to_store_eq_dedup (keyFilter_not_empty hkM)
      rw [h1]
      refine append_step (concatDF old X) X hndM concatDF_rows_length
        (fun c hc => mem_concatDF_cols_right hc) hkM ?_
      intro y hy
      have hyM : y ∈ (concatDF old X).rows := by
        rw [concatDF_rows]
        exact List.mem_append_right _ hy
      exact List.mem_map_of_mem _ hyM

/-- The concrete batch used to witness the accumulation theorems. -/
def c1X : DF :=
  ⟨["Date", "Pitch Type", "Velocity"],
    [[Cell.str "2024-05-01", Cell.str "Fastball", Cell.num 145],
     [Cell.str "2024-05-01", Cell.str "Slider", Cell.na],
     [Cell.str "2024-05-01", Cell.str "Fastball", Cell.num 145]]⟩

/-- Witness for C1 at a concrete batch: the hypotheses hold and the double
append equals the single append. -/
theorem c1_append_idempotent_witness :
    c1X.cols.Nodup ∧ (∀ r ∈ c1X.rows, r.length = c1X.cols.length) ∧
    "Pitch Type" ∈ c1X.cols ∧
    append_to_store (some (append_to_store none c1X)) c1X =
      append_to_store none c1X :=
  ⟨by decide, by decide, by decide,
    c1_append_idempotent none c1X (by decide) (by decide)
      (fun old h => Option.noConfusion h) (by decide)⟩

/-- The key-column set asserted by the specification for the deduplication
invariant: date, category, and whichever numeric measurement columns are
present in the schema.  The source's `append_to_store` instead dedupes on
the fixed `KEY_COLS` list, which omits "Spin Efficiency". -/
def claimKeyCols (cols : List String) : List String :=
  ["Date", "Pitch Type"] ++ NUMERIC_COLS.filter (fun c => cols.contains c)

theorem codeKeys_sub_claimKeys (cols : List String) :
    ∀ c ∈ KEY_COLS.filter (fun c => cols.contains c), c ∈ claimKeyCols cols := by
  intro c hc
  rw [List.mem_filter] at hc
  rcases hc with ⟨hmem, hcon⟩
  simp only [KEY_COLS, List.mem_cons, List.not_mem_nil, or_false] at hmem
  rcases hmem with rfl | rfl | rfl | rfl | rfl | rfl <;>
    simp [claimKeyCols, NUMERIC_COLS, List.mem_filter, hcon,
      List.elem_iff.mp hcon]

theorem projRow_eq_of_supset {cols K K' : List String}
    (hsub : ∀ c ∈ K, c ∈ K') {r1 r2 : List Cell}
    (h : projRow cols K' r1 = projRow cols K' r2) :
    projRow cols K r1 = projRow cols K r2 := by
  have hpt : ∀ c ∈ K', cellAt cols c r1 = cellAt cols c r2 :=
    List.map_eq_map_iff.mp h
  exact List.map_eq_map_iff.mpr (fun c hc => hpt c (hsub c hc))

theorem pt_mem_mergedOf {X : DF} (hKey : "Pitch Type" ∈ X.cols) :
    ∀ s0 : Option DF, "Pitch Type" ∈ (mergedOf s0 X).cols := by
  intro s0
  cases s0 with
  | none => exact hKey
  | some old => exact mem_concatDF_cols_right hKey

def c2r1 : List Cell :=
  [Cell.str "2024-05-01", Cell.str "Fastball", Cell.num 140, Cell.num 2200,
   Cell.num 3, Cell.num 4, Cell.num 1]

def c2r2 : List Cell :=
  [Cell.str "2024-05-01", Cell.str "Fastball", Cell.num 140, Cell.num 2200,
   Cell.num 3, Cell.num 4, Cell.num 2]

def c2r3 : List Cell :=
  [Cell.str "2024-05-01", Cell.str "Fastball", Cell.num 140, Cell.num 2200,
   Cell.num 3, Cell.num 4, Cell.num 2]

/-- A batch whose three rows agree on the code's key columns but whose
spin-efficiency values split them into two groups under the spec's claimed
key projection. -/
def c2X : DF :=
  ⟨["Date", "Pitch Type", "Velocity", "Total Spin", "HB", "VB",
    "Spin Efficiency"],
    [c2r1, c2r2, c2r3]⟩

/-- Counterexample to claim C2 as stated: rows `c2r2` and `c2r3` are
duplicates under the claimed key projection (which includes
"Spin Efficiency"), `c2r2` is the first occurrence of that duplicate group
in concatenation order, yet the store kept after the append contains no
row with that claimed key at all — `append_to_store` dedupes on the fixed
`KEY_COLS` list without "Spin Efficiency" and keeps only `c2r1`. -/
theorem c2_counterexample :
    append_to_store none c2X = ⟨c2X.cols, [c2r1]⟩ ∧
    projRow c2X.cols (claimKeyCols c2X.cols) c2r2 =
      projRow c2X.cols (claimKeyCols c2X.cols) c2r3 ∧
    c2r2 ∈ (mergedOf none c2X).rows ∧
    (∀ r ∈ (append_to_store none c2X).rows,
      ¬ projRow c2X.cols (claimKeyCols c2X.cols) r =
          projRow c2X.cols (claimKeyCols c2X.cols) c2r2) := by
  refine ⟨by decide, by decide, by decide, by decide⟩

/-- Claim C2 (amended): after every append the store contains no two rows
equal on the key columns the code actually uses — date, category, and the
velocity / total-spin / HB / VB columns present (`KEY_COLS`, which omits
spin efficiency); consequently the claimed invariant over the spec's
larger key set also holds.  Duplicates under the code's key projection
keep their first occurrence in concatenation order: every stored row is
the `find?`-first row of the concatenation with its key, and every
concatenated row's key is represented by a stored row. -/
theorem c2_dedup_invariant_amended (s0 : Option DF) (X : DF)
    (hKey : "Pitch Type" ∈ X.cols) :
    (append_to_store s0 X).rows.Pairwise
        (fun r r' =>
          projRow (mergedOf s0 X).cols
              (KEY_COLS.filter (fun c => (mergedOf s0 X).cols.contains c)) r ≠
            projRow (mergedOf s0 X).cols
              (KEY_COLS.filter (fun c => (mergedOf s0 X).cols.contains c)) r') ∧
    (append_to_store s0 X).rows.Pairwise
        (fun r r' =>
          projRow (mergedOf s0 X).cols (claimKeyCols (mergedOf s0 X).cols) r ≠
            projRow (mergedOf s0 X).cols (claimKeyCols (mergedOf s0 X).cols) r') ∧
    (∀ r ∈ (append_to_store s0 X).rows,
      (mergedOf s0 X).rows.find?
          (fun x => decide
            (projRow (mergedOf s0 X).cols
                (KEY_COLS.filter (fun c => (mergedOf s0 X).cols.contains c)) x =
              projRow (mergedOf s0 X).cols
                (KEY_COLS.filter (fun c => (mergedOf s0 X).cols.contains c)) r))
        = some r) ∧
    (∀ x ∈ (mergedOf s0 X).rows, ∃ r ∈ (append_to_store s0 X).rows,
      projRow (mergedOf s0 X).cols
          (KEY_COLS.filter (fun c => (mergedOf s0 X).cols.contains c)) r =
        projRow (mergedOf s0 X).cols
          (KEY_COLS.filter (fun c => (mergedOf s0 X).cols.contains c)) x) := by
  have hkM := pt_mem_mergedOf hKey s0
  have hR : append_to_store s0 X =
      dropDuplicates (mergedOf s0 X)
        (KEY_COLS.filter (fun c => (mergedOf s0 X).cols.contains c)) :=
    append_to_store_eq_dedup (keyFilter_not_empty hkM)
  rw [hR]
  have hrows : (dropDuplicates (mergedOf s0 X)
      (KEY_COLS.filter (fun c => (mergedOf s0 X).cols.contains c))).rows
      = dedupBy (projRow (mergedOf s0 X).cols
          (KEY_COLS.filter (fun c => (mergedOf s0 X).cols.contains c)))
          (mergedOf s0 X).rows [] := rfl
  rw [hrows]
  have hcode : (dedupBy (projRow (mergedOf s0 X).cols
      (KEY_COLS.filter (fun c => (mergedOf s0 X).cols.contains c)))
      (mergedOf s0 X).rows []).Pairwise
      (fun r r' =>
        projRow (mergedOf s0 X).cols
            (KEY_COLS.filter (fun c => (mergedOf s0 X).cols.contains c)) r ≠
          projRow (mergedOf s0 X).cols
            (KEY_COLS.filter (fun c => (mergedOf s0 X).cols.contains c)) r') := by
    have hnd := dedupBy_keys_nodup
      (projRow (mergedOf s0 X).cols
        (KEY_COLS.filter (fun c => (mergedOf s0 X).cols.contains c)))
      (mergedOf s0 X).rows []
    rw [List.Nodup, List.pairwise_map] at hnd
    exact hnd
  refine ⟨hcode, ?_, ?_, ?_⟩
  · refine hcode.imp ?_
    intro r r' hne he
    exact hne (projRow_eq_of_supset (codeKeys_sub_claimKeys _) he)
  · intro r hr
    exact dedupBy_first_occurrence r hr
  · intro x hx
    rcases dedupBy_covers (projRow (mergedOf s0 X).cols
        (KEY_COLS.filter (fun c => (mergedOf s0 X).cols.contains c)))
        (mergedOf s0 X).rows [] x hx with h | h
    · simp at h
    · rcases List.mem_map.mp h with ⟨r, hrmem, hfr⟩
      exact ⟨r, hrmem, hfr⟩

/-- Witness for the amended C2 at a concrete batch: the hypothesis holds
and each stored row is the first occurrence of its key. -/
theorem c2_dedup_invariant_amended_witness :
    "Pitch Type" ∈ c2X.cols ∧
    (∀ r ∈ (append_to_store none c2X).rows,
      (mergedOf none c2X).rows.find?
          (fun x => decide
            (projRow (mergedOf none c2X).cols
                (KEY_COLS.filter
                  (fun c => (mergedOf none c2X).cols.contains c)) x =
              projRow (mergedOf none c2X).cols
                (KEY_COLS.filter
                  (fun c => (mergedOf none c2X).cols.contains c)) r))
        = some r) :=
  ⟨by decide, (c2_dedup_invariant_amended none c2X (by decide)).2.2.1⟩

/-- A file whose parsed table (header on line 5) has no date-like column:
observed headers are "Pitch Type", "Velocity", "Foo". -/
def c3Lines : List String :=
  ["m1", "m2", "n,x", "m4", "Pitch Type,Velocity,Foo", "Fastball,1,2"]

/-- Counterexample to claim C3 as stated: ingestion of a table with no
date column fails with an error naming the missing field, but the error
does not list the observed headers — "Foo" is an observed header and does
not occur in the message. -/
theorem c3_counterexample :
    process_data_core c3Lines = Except.error "必要な列が見つかりません: 日付" ∧
    "Foo" ∈ (read_csv_skip4 c3Lines).cols ∧
    ¬ List.IsInfix "Foo".data "必要な列が見つかりません: 日付".data := by
  refine ⟨by decide, by decide, by decide⟩

/-- Claim C3 (amended): a table whose category and velocity columns
resolve but whose date column does not makes `process_data` fail with a
descriptive error naming the missing canonical field (without listing the
observed headers), and the failure is confined to that one file: in a
batch, files before and after the failing one are processed exactly as
they would be alone, with the failing file contributing the "Error"
placeholder triple. -/
theorem c3_required_field_amended (lines : List String)
    (hc1 : (renameCols ⟨(read_csv_skip4 lines).cols.map cleanHeader,
        (read_csv_skip4 lines).rows⟩).cols.contains "球種" = true)
    (hc2 : (renameCols ⟨(read_csv_skip4 lines).cols.map cleanHeader,
        (read_csv_skip4 lines).rows⟩).cols.contains "球速" = true)
    (hc3 : (renameCols ⟨(read_csv_skip4 lines).cols.map cleanHeader,
        (read_csv_skip4 lines).rows⟩).cols.contains "日付" = false) :
    process_data_core lines = Except.error "必要な列が見つかりません: 日付" ∧
    (∀ (pre post : List (String × List String)) (name : String),
      processBatch (pre ++ (name, lines) :: post) =
        processBatch pre ++
          ("Error", String.mk (name.data.take 7), (⟨[], []⟩ : DF)) ::
          processBatch post) := by
  have hreq : requiredCheckMsg
      (renameCols ⟨(read_csv_skip4 lines).cols.map cleanHeader,
        (read_csv_skip4 lines).rows⟩) =
      some "必要な列が見つかりません: 日付" := by
    have h1 := List.elem_iff.mp hc1
    have h2 := List.elem_iff.mp hc2
    have h3 : ¬ "日付" ∈ (renameCols ⟨(read_csv_skip4 lines).cols.map cleanHeader,
        (read_csv_skip4 lines).rows⟩).cols := by
      intro hm
      have hel : (renameCols ⟨(read_csv_skip4 lines).cols.map cleanHeader,
          (read_csv_skip4 lines).rows⟩).cols.contains "日付" = true :=
        List.elem_iff.mpr hm
      rw [hc3] at hel
      exact Bool.noConfusion hel
    rw [requiredCheckMsg]
    simp [List.findSome?_cons, h1, h2, h3]
  have hcore : process_data_core lines =
      Except.error "必要な列が見つかりません: 日付" := by
    rw [process_data_core, hreq]
  refine ⟨hcore, ?_⟩
  intro pre post name
  have hpd : process_data name lines =
      ("Error", String.mk (name.data.take 7), (⟨[], []⟩ : DF)) := by
    rw [process_data, hcore]
  rw [processBatch, List.map_append, List.map_cons, hpd]
  rfl

/-- Witness for the amended C3 at the concrete no-date file. -/
theorem c3_required_field_amended_witness :
    (renameCols ⟨(read_csv_skip4 c3Lines).cols.map cleanHeader,
        (read_csv_skip4 c3Lines).rows⟩).cols.contains "球種" = true ∧
    (renameCols ⟨(read_csv_skip4 c3Lines).cols.map cleanHeader,
        (read_csv_skip4 c3Lines).rows⟩).cols.contains "日付" = false ∧
    process_data_core c3Lines = Except.error "必要な列が見つかりません: 日付" :=
  ⟨by decide, by decide,
    (c3_required_field_amended c3Lines (by decide) (by decide) (by decide)).1⟩

/-- Leading non-blank lines holding ten tab characters and two commas: the
spec's majority heuristic would select the tab. -/
def c4TabLines : List String :=
  ["m1", "m2", "n,x,y", "m4", "A\tB\tC\tD\tE\tF\tG\tH\tI\tJ\tK", "1\t2\t3"]

/-- Leading non-blank lines holding ten commas and two tabs: the spec's
own example sample. -/
def c4CommaLines : List String :=
  ["m1", "m2", "n\tx\ty", "m4", "A,B,C,D,E,F,G,H,I,J,K", "1,2,3"]

/-- Counterexample to claim C4 as stated: on a sample where the tab has
the majority count the spec's detector selects the tab, but the parser
(`pd.read_csv` without `sep`) still splits on commas and reads the whole
tab-separated header as a single column — no auto-detection happens. -/
theorem c4_counterexample :
    detectDelimiter_spec c4TabLines = '\t' ∧
    (read_csv_skip4 c4TabLines).cols = ["A\tB\tC\tD\tE\tF\tG\tH\tI\tJ\tK"] ∧
    (read_csv_skip4 c4TabLines).cols ≠
      splitOnChar '\t' "A\tB\tC\tD\tE\tF\tG\tH\tI\tJ\tK" := by
  refine ⟨by decide, by decide, by decide⟩

/-- Claim C4 (amended): the parser performs no delimiter detection and
always splits on the comma, the `pd.read_csv` default.  On the spec's
example sample (10 commas, 2 tabs) the outcome coincides with the
majority rule — comma — while on a majority-tab sample the parser still
splits on commas. -/
theorem c4_delimiter_amended :
    read_csv_sep = ',' ∧
    detectDelimiter_spec c4CommaLines = ',' ∧
    (read_csv_skip4 c4CommaLines).cols =
      ["A", "B", "C", "D", "E", "F", "G", "H", "I", "J", "K"] ∧
    (read_csv_skip4 c4TabLines).cols =
      ["A\tB\tC\tD\tE\tF\tG\tH\tI\tJ\tK"] := by
  refine ⟨rfl, by decide, by decide, by decide⟩

/-- The numeric normalization applied by src/app.py to one cell of a
measurement column: the frame-wide sentinel replacement of line 79
followed by the `to_numeric` coercion of line 94. -/
def replaceSentinelCell (c : Cell) : Cell :=
  match c with
  | Cell.str s => if s ∈ ["－", "-"] then Cell.na else Cell.str s
  | c => c

def normalize_numeric_app (c : Cell) : Cell :=
  toNumericCoerce (replaceSentinelCell c)

/-- The numeric normalization of src/ritsumeikan_app.py line 106:
`pd.to_numeric(df[col].replace("-", pd.NA), errors="coerce")`. -/
def normalize_numeric_rits (c : Cell) : Cell :=
  toNumericCoerce (if c = Cell.str "-" then Cell.na else c)

/-- Claim C5: a numeric cell holding exactly "-" (or the fullwidth "－")
normalizes to missing in both variants — not to zero and not to an error —
any other unparseable value also becomes missing, and parseable values
become their number. -/
theorem c5_sentinel_missing :
    (normalize_numeric_app (Cell.str "-") = Cell.na ∧
     normalize_numeric_app (Cell.str "－") = Cell.na ∧
     normalize_numeric_rits (Cell.str "-") = Cell.na ∧
     normalize_numeric_rits (Cell.str "－") = Cell.na ∧
     normalize_numeric_app (Cell.str "-") ≠ Cell.num 0 ∧
     normalize_numeric_rits (Cell.str "-") ≠ Cell.num 0) ∧
    (∀ s : String, parseRat s = none →
      normalize_numeric_app (Cell.str s) = Cell.na ∧
      normalize_numeric_rits (Cell.str s) = Cell.na) ∧
    (∀ (s : String) (q : ℚ), parseRat s = some q →
      normalize_numeric_app (Cell.str s) = Cell.num q ∧
      normalize_numeric_rits (Cell.str s) = Cell.num q) := by
  refine ⟨by decide, ?_, ?_⟩
  · intro s h
    constructor
    · rw [normalize_numeric_app, replaceSentinelCell]
      by_cases hs : s ∈ ["－", "-"]
      · rw [if_pos hs]
        rfl
      · rw [if_neg hs, toNumericCoerce, h]
    · rw [normalize_numeric_rits]
      by_cases hs : Cell.str s = Cell.str "-"
      · rw [if_pos hs]
        rfl
      · rw [if_neg hs, toNumericCoerce, h]
  · intro s q h
    have hs1 : s ≠ "-" := by
      intro he
      subst he
      rw [show parseRat "-" = none from by decide] at h
      exact Option.noConfusion h
    have hs2 : s ≠ "－" := by
      intro he
      subst he
      rw [show parseRat "－" = none from by decide] at h
      exact Option.noConfusion h
    constructor
    · rw [normalize_numeric_app, replaceSentinelCell]
      have hni : ¬ s ∈ ["－", "-"] := by
        simp [hs1, hs2]
      rw [if_neg hni, toNumericCoerce, h]
    · rw [normalize_numeric_rits]
      have hne : ¬ (Cell.str s = Cell.str "-") := by
        intro he
        exact hs1 (Cell.str.injEq s "-" ▸ he |> fun hh => by
          cases hh
          rfl)
      rw [if_neg hne, toNumericCoerce, h]

/-- Witness for C5 at concrete cells: an unparseable value becomes
missing, a parseable one becomes its number. -/
theorem c5_sentinel_missing_witness :
    parseRat "abc" = none ∧
    normalize_numeric_app (Cell.str "abc") = Cell.na ∧
    parseRat "145.2" = some (mkRat 726 5) ∧
    normalize_numeric_app (Cell.str "145.2") = Cell.num (mkRat 726 5) :=
  ⟨by decide, (c5_sentinel_missing.2.1 "abc" (by decide)).1,
   by decide, (c5_sentinel_missing.2.2 "145.2" (mkRat 726 5) (by decide)).1⟩

/-- Counterexample to claim C6 as stated: on a three-line input whose
metadata line has an empty second field, the ritumeikan_app variant of the
extraction (cited by the claim) returns the empty string, not the sentinel
"Unknown". -/
theorem c6_counterexample :
    extract_player_name_ritumeikan ["m1", "m2", "a,,b"] = Except.ok "" ∧
    ("" : String) ≠ "Unknown" := by
  refine ⟨by decide, by decide⟩

/-- Claim C6 (amended): all three extraction variants are total and
return "Unknown" for inputs with fewer than three lines.  On longer
inputs the ritsumeikan_app variant returns the trimmed second CSV field of
line 3, with "Unknown" for a malformed line or an empty field; the
ritumeikan_app variant returns the trimmed second field as-is — the empty
string stays the empty string. -/
theorem c6_extract_name_amended :
    (∀ lines : List String, lines.length < 3 →
      extract_player_name lines = "Unknown" ∧
      extract_player_name_ritumeikan lines = Except.ok "Unknown" ∧
      read_player_name_from_text lines = "Unknown") ∧
    (∀ (lines : List String) (r : List String) (rest : List (List String)),
      3 ≤ lines.length → csvReaderRows (lines.getD 2 "") = r :: rest →
      (r.length < 2 → extract_player_name lines = "Unknown" ∧
        extract_player_name_ritumeikan lines = Except.ok "Unknown") ∧
      (2 ≤ r.length →
        (pyStrip (r.getD 1 "") = "" → extract_player_name lines = "Unknown") ∧
        (pyStrip (r.getD 1 "") ≠ "" →
          extract_player_name lines = pyStrip (r.getD 1 "")) ∧
        extract_player_name_ritumeikan lines =
          Except.ok (pyStrip (r.getD 1 "")))) := by
  constructor
  · intro lines h
    have hnot : ¬ (3 ≤ lines.length) := Nat.not_le.mpr h
    refine ⟨?_, ?_, ?_⟩
    · rw [extract_player_name, if_neg hnot]
    · rw [extract_player_name_ritumeikan, if_neg hnot]
    · rw [read_player_name_from_text, if_pos h]
  · intro lines r rest h3 hrow
    constructor
    · intro hlt
      have hnot2 : ¬ (2 ≤ r.length) := Nat.not_le.mpr hlt
      constructor
      · simp only [extract_player_name, if_pos h3, hrow]
        rw [if_neg hnot2]
      · simp only [extract_player_name_ritumeikan, if_pos h3, hrow]
        rw [if_neg hnot2]
    · intro h2
      refine ⟨?_, ?_, ?_⟩
      · intro hemp
        simp only [extract_player_name, if_pos h3, hrow, if_pos h2]
        rw [hemp]
        rfl
      · intro hne
        have hbe : ¬ ((pyStrip (r.getD 1 "")).isEmpty = true) :=
          fun he => hne ((String.isEmpty_iff (pyStrip (r.getD 1 ""))).mp he)
        simp only [extract_player_name, if_pos h3, hrow, if_pos h2]
        rw [if_neg hbe]
      · simp only [extract_player_name_ritumeikan, if_pos h3, hrow,
          if_pos h2]

/-- Witness for the amended C6 at concrete inputs: the short-input
sentinel, a successful second-field extraction, and the empty-field
behaviour of the ritumeikan variant. -/
theorem c6_extract_name_amended_witness :
    (["only"] : List String).length < 3 ∧
    extract_player_name ["only"] = "Unknown" ∧
    extract_player_name ["a", "b", "x, Taro ,z"] = "Taro" ∧
    extract_player_name_ritumeikan ["a", "b", "x,,z"] = Except.ok "" :=
  ⟨by decide, (c6_extract_name_amended.1 ["only"] (by decide)).1,
    Eq.trans
      (((c6_extract_name_amended.2 ["a", "b", "x, Taro ,z"]
          ["x", " Taro ", "z"] [] (by decide) (by decide)).2
        (by decide)).2.1 (by decide))
      (by decide),
    Eq.trans
      (((c6_extract_name_amended.2 ["a", "b", "x,,z"]
          ["x", "", "z"] [] (by decide) (by decide)).2
        (by decide)).2.2)
      (by decide)⟩

/-- Counterexample to claim C7 as stated: when all candidate decodes fail,
the source falls back to `decode("utf-8", errors="ignore")`, which drops
malformed bytes rather than substituting them — on the bytes
`[65, 255, 66]` it yields "AB", with no replacement character, while
decoding with substitution would yield "A�B". -/
theorem c7_counterexample :
    utf8Strict [65, 255, 66] = none ∧
    utf8DecodeIgnore [65, 255, 66] = "AB" ∧
    utf8DecodeReplace [65, 255, 66] = "A�B" ∧
    utf8DecodeIgnore [65, 255, 66] ≠ utf8DecodeReplace [65, 255, 66] := by
  refine ⟨by decide, by decide, by decide, by decide⟩

/-- Claim C7 (amended): the decoder tries the fixed encoding chain utf-8,
cp932, shift_jis in order and returns the first successful decode; if all
fail it decodes with invalid bytes dropped (`errors="ignore"`) instead of
raising, so decoding never aborts the ingestion. -/
theorem c7_decode_chain_amended (cp932 shift_jis : List Nat → Option String)
    (b : List Nat) :
    (∀ t, utf8Strict b = some t →
      _decode_bytes cp932 shift_jis b = (String.mk t, "utf-8")) ∧
    (∀ t, utf8Strict b = none → cp932 b = some t →
      _decode_bytes cp932 shift_jis b = (t, "cp932")) ∧
    (∀ t, utf8Strict b = none → cp932 b = none → shift_jis b = some t →
      _decode_bytes cp932 shift_jis b = (t, "shift_jis")) ∧
    (utf8Strict b = none → cp932 b = none → shift_jis b = none →
      _decode_bytes cp932 shift_jis b =
        (utf8DecodeIgnore b, "utf-8(ignore)")) := by
  refine ⟨?_, ?_, ?_, ?_⟩
  · intro t h
    simp only [_decode_bytes, h]
  · intro t h1 h2
    simp only [_decode_bytes, h1, h2]
  · intro t h1 h2 h3
    simp only [_decode_bytes, h1, h2, h3]
  · intro h1 h2 h3
    simp only [_decode_bytes, h1, h2, h3]

/-- Witness for the amended C7: with always-failing legacy codecs, a pure
ASCII input decodes as utf-8 and an invalid byte sequence falls back to
the ignore decode. -/
theorem c7_decode_chain_amended_witness :
    utf8Strict [72, 105] = some ['H', 'i'] ∧
    _decode_bytes (fun _ => none) (fun _ => none) [72, 105] =
      (String.mk ['H', 'i'], "utf-8") ∧
    utf8Strict [65, 255, 66] = none ∧
    _decode_bytes (fun _ => none) (fun _ => none) [65, 255, 66] =
      (utf8DecodeIgnore [65, 255, 66], "utf-8(ignore)") :=
  ⟨by decide,
    (c7_decode_chain_amended (fun _ => none) (fun _ => none) [72, 105]).1
      ['H', 'i'] (by decide),
    by decide,
    (c7_decode_chain_amended (fun _ => none) (fun _ => none)
      [65, 255, 66]).2.2.2 (by decide) rfl rfl⟩

/-- The end-to-end input of the spec's scenario: metadata lines, the
header `Date,Pitch Type,Velocity,Total Spin` on line 5, and the two data
lines of the scenario on lines 6 and 7. -/
def c8Lines : List String :=
  ["m1", "m2", "Player Name,Test", "m4",
   "Date,Pitch Type,Velocity,Total Spin",
   "2024-05-01,Fastball,145.2,2200",
   "2024-05-01,Slider,-,2000"]

/-- Counterexample to claim C8 as stated: the app.py loader does produce
the two expected observations, but the ritsumeikan_app pipeline — also
cited by the claim — drops every row with missing velocity in its final
`dropna(subset=["球速", "球種", "datetime"])`, so on this exact input it
returns one observation, not two: normalization there is not restricted
to dropping rows with missing date. -/
theorem c8_counterexample :
    (load_rapsodo_csv c8Lines).rows.length = 2 ∧
    (process_data "1234567.csv" c8Lines).2.2.rows.length = 1 ∧
    (process_data "1234567.csv" c8Lines).2.2.rows.length ≠ 2 := by
  refine ⟨by decide, by decide, by decide⟩

/-- Claim C8 (amended): on the scenario input the app.py loader produces
exactly two Canonical Observations — the second with velocity missing and
total spin 2000.0 — and drops no row; the ritsumeikan_app variant
additionally drops rows missing velocity (beyond those missing date), so
its pipeline keeps only the Fastball row of this input. -/
theorem c8_end_to_end_amended :
    load_rapsodo_csv c8Lines =
      ⟨["Date", "Pitch Type", "Velocity", "Total Spin"],
       [[Cell.date 2024 5 1, Cell.str "Fastball", Cell.num (mkRat 726 5),
         Cell.num 2200],
        [Cell.date 2024 5 1, Cell.str "Slider", Cell.na, Cell.num 2000]]⟩ ∧
    cellAt (load_rapsodo_csv c8Lines).cols "Velocity"
      ((load_rapsodo_csv c8Lines).rows.getD 1 []) = Cell.na ∧
    cellAt (load_rapsodo_csv c8Lines).cols "Total Spin"
      ((load_rapsodo_csv c8Lines).rows.getD 1 []) = Cell.num 2000 ∧
    process_data_core c8Lines =
      Except.ok ("Test",
        ⟨["日付", "球種", "球速", "回転数", "datetime", "ストライク数"],
         [[Cell.date 2024 5 1, Cell.str "Fastball", Cell.num (mkRat 726 5),
           Cell.num 2200, Cell.date 2024 5 1, Cell.num 0]]⟩) := by
  refine ⟨by decide, by decide, by decide, by decide⟩

/-- A store holding two rows before the failing append. -/
def c9old : DF :=
  ⟨["Date", "Pitch Type"],
    [[Cell.str "2024-05-01", Cell.str "Fastball"],
     [Cell.str "2024-05-01", Cell.str "Slider"]]⟩

/-- A batch contributing one new row. -/
def c9new : DF :=
  ⟨["Date", "Pitch Type"], [[Cell.str "2024-05-02", Cell.str "Fastball"]]⟩

/-- Counterexample to claim C9 as stated: the write step is a direct
truncating rewrite of the store file (`to_parquet` at the final path — no
temporary file and no rename exist in the source), so an I/O failure
mid-write can leave the store equal to neither the prior contents nor the
new contents — the prior store does not survive a failed write. -/
theorem c9_counterexample :
    (append_run (some c9old) c9new (WriteOutcome.fail 1)).2 = true ∧
    (append_run (some c9old) c9new (WriteOutcome.fail 1)).1 ≠ some c9old ∧
    (append_run (some c9old) c9new (WriteOutcome.fail 1)).1 ≠
      some (append_to_store (some c9old) c9new) := by
  refine ⟨by decide, by decide, by decide⟩

/-- Claim C9 (amended): every append persists by a full truncating rewrite
of the store at its final path — not write-new-then-replace — so a
successful write replaces the store with exactly the merged frame, and a
write failing after `k` rows leaves a partial new file while the error
propagates to the caller. -/
theorem c9_write_amended (store : Option DF) (new : DF) :
    append_run store new WriteOutcome.ok =
      (some (append_to_store store new), false) ∧
    (∀ k, (append_run store new (WriteOutcome.fail k)).2 = true ∧
      (append_run store new (WriteOutcome.fail k)).1 =
        some ⟨(append_to_store store new).cols,
              (append_to_store store new).rows.take k⟩) :=
  ⟨rfl, fun _ => ⟨rfl, rfl⟩⟩

theorem padTo_length (n : Nat) (l : List Cell) : (padTo n l).length = n := by
  rw [padTo, List.length_take, List.length_append, List.length_replicate]
  omega

theorem read_csv_skip4_wf (lines : List String) :
    ∀ r ∈ (read_csv_skip4 lines).rows,
      r.length = (read_csv_skip4 lines).cols.length := by
  cases h : lines.drop 4 with
  | nil =>
      intro r hr
      simp [read_csv_skip4, h] at hr
  | cons header dataLines =>
      intro r hr
      simp only [read_csv_skip4, h] at hr ⊢
      rcases List.mem_map.mp hr with ⟨l, _, hl⟩
      rw [← hl]
      exact padTo_length _ _

theorem replaceSentinels_cols (sent : List String) (df : DF) :
    (replaceSentinels sent df).cols = df.cols := rfl

theorem replaceSentinels_wf (sent : List String) (df : DF)
    (h : ∀ r ∈ df.rows, r.length = df.cols.length) :
    ∀ r ∈ (replaceSentinels sent df).rows,
      r.length = (replaceSentinels sent df).cols.length := by
  intro r hr
  simp only [replaceSentinels] at hr ⊢
  rcases List.mem_map.mp hr with ⟨r0, hr0, hre⟩
  rw [← hre, List.length_map]
  exact h r0 hr0

theorem mapCol_cols (df : DF) (c : String) (g : Cell → Cell) :
    (mapCol df c g).cols = df.cols := by
  rw [mapCol]
  cases colIdx df.cols c <;> rfl

theorem mapCol_wf (df : DF) (c : String) (g : Cell → Cell)
    (h : ∀ r ∈ df.rows, r.length = df.cols.length) :
    ∀ r ∈ (mapCol df c g).rows, r.length = (mapCol df c g).cols.length := by
  intro r hr
  rw [mapCol_cols]
  cases hidx : colIdx df.cols c with
  | none =>
      rw [mapCol, hidx] at hr
      exact h r hr
  | some i =>
      rw [mapCol, hidx] at hr
      rcases List.mem_map.mp hr with ⟨r0, hr0, hre⟩
      rw [← hre, List.length_set]
      exact h r0 hr0

theorem mapCol_preserves (df : DF) (c tgt : String) (g : Cell → Cell)
    (hne : tgt ≠ c) (v : Cell)
    (h : ∀ r ∈ df.rows, cellAt df.cols tgt r = v) :
    ∀ r ∈ (mapCol df c g).rows, cellAt (mapCol df c g).cols tgt r = v := by
  intro r hr
  rw [mapCol_cols]
  cases hidx : colIdx df.cols c with
  | none =>
      rw [mapCol, hidx] at hr
      exact h r hr
  | some i =>
      rw [mapCol, hidx] at hr
      rcases List.mem_map.mp hr with ⟨r0, hr0, hre⟩
      rw [← hre, cellAt_set_ne hidx hne]
      exact h r0 hr0

theorem foldl_mapCol_preserves (names : List String) (g : Cell → Cell)
    (tgt : String) (v : Cell) :
    ∀ df : DF, (∀ c ∈ names, tgt ≠ c) →
      (∀ r ∈ df.rows, cellAt df.cols tgt r = v) →
      (names.foldl
          (fun d c => if d.cols.contains c then mapCol d c g else d) df).cols
        = df.cols ∧
      ∀ r ∈ (names.foldl
          (fun d c => if d.cols.contains c then mapCol d c g else d) df).rows,
        cellAt (names.foldl
          (fun d c => if d.cols.contains c then mapCol d c g else d) df).cols
          tgt r = v := by
  induction names with
  | nil => exact fun df _ h => ⟨rfl, h⟩
  | cons c cs ih =>
      intro df hne h
      simp only [List.foldl_cons]
      have hd1cols :
          (if df.cols.contains c then mapCol df c g else df).cols = df.cols := by
        split
        · exact mapCol_cols df c g
        · rfl
      have hd1pres : ∀ r ∈ (if df.cols.contains c then mapCol df c g
          else df).rows,
          cellAt (if df.cols.contains c then mapCol df c g else df).cols tgt r
            = v := by
        split
        · exact mapCol_preserves df c tgt g (hne c (List.mem_cons_self _ _)) v h
        · exact h
      have hrec := ih (if df.cols.contains c then mapCol df c g else df)
        (fun c' hc' => hne c' (List.mem_cons_of_mem _ hc')) hd1pres
      exact ⟨by rw [hrec.1, hd1cols], hrec.2⟩

/-- Claim C10: in the variant that does not require a category column
(`load_rapsodo_csv`), a table without a "Pitch Type" column normalizes
without failing: a category column holding the string "Unknown" in every
row is silently added, so every resulting observation has a present
category. -/
theorem c10_unknown_category (lines : List String)
    (h : ¬ "Pitch Type" ∈ (read_csv_skip4 lines).cols) :
    "Pitch Type" ∈ (load_rapsodo_csv lines).cols ∧
    ∀ r ∈ (load_rapsodo_csv lines).rows,
      cellAt (load_rapsodo_csv lines).cols "Pitch Type" r =
        Cell.str "Unknown" := by
  have hwf0 := read_csv_skip4_wf lines
  have hwf1 := replaceSentinels_wf ["－", "-"] (read_csv_skip4 lines) hwf0
  have h2cols : (load_stage_date
      (replaceSentinels ["－", "-"] (read_csv_skip4 lines))).cols
      = (read_csv_skip4 lines).cols := by
    rw [load_stage_date]
    split
    · exact mapCol_cols _ _ _
    · rfl
  have hwf2 : ∀ r ∈ (load_stage_date
      (replaceSentinels ["－", "-"] (read_csv_skip4 lines))).rows,
      r.length = (load_stage_date
        (replaceSentinels ["－", "-"] (read_csv_skip4 lines))).cols.length := by
    rw [load_stage_date]
    split
    · exact mapCol_wf _ _ _ hwf1
    · exact hwf1
  have hnot2 : ¬ "Pitch Type" ∈ (load_stage_date
      (replaceSentinels ["－", "-"] (read_csv_skip4 lines))).cols := by
    rw [h2cols]
    exact h
  have hcontains : (load_stage_date
      (replaceSentinels ["－", "-"] (read_csv_skip4 lines))).cols.contains
        "Pitch Type" = false := by
    rw [Bool.eq_false_iff]
    exact fun hc => hnot2 (List.elem_iff.mp hc)
  have hpitch : load_stage_pitch (load_stage_date
      (replaceSentinels ["－", "-"] (read_csv_skip4 lines)))
      = addConstCol (load_stage_date
          (replaceSentinels ["－", "-"] (read_csv_skip4 lines)))
          "Pitch Type" (Cell.str "Unknown") := by
    rw [load_stage_pitch, hcontains]
    rfl
  have hpres : ∀ r ∈ (addConstCol (load_stage_date
      (replaceSentinels ["－", "-"] (read_csv_skip4 lines)))
      "Pitch Type" (Cell.str "Unknown")).rows,
      cellAt (addConstCol (load_stage_date
        (replaceSentinels ["－", "-"] (read_csv_skip4 lines)))
        "Pitch Type" (Cell.str "Unknown")).cols "Pitch Type" r
        = Cell.str "Unknown" := by
    intro r hr
    simp only [addConstCol] at hr ⊢
    rcases List.mem_map.mp hr with ⟨r0, hr0, hre⟩
    rw [← hre]
    exact cellAt_append_new hnot2 r0 (Cell.str "Unknown") (hwf2 r0 hr0)
  have hneq : ∀ c ∈ NUMERIC_COLS, "Pitch Type" ≠ c := by decide
  have hfin := foldl_mapCol_preserves NUMERIC_COLS toNumericCoerce
    "Pitch Type" (Cell.str "Unknown")
    (addConstCol (load_stage_date
      (replaceSentinels ["－", "-"] (read_csv_skip4 lines)))
      "Pitch Type" (Cell.str "Unknown")) hneq hpres
  have hload : load_rapsodo_csv lines = NUMERIC_COLS.foldl
      (fun d c => if d.cols.contains c then mapCol d c toNumericCoerce else d)
      (addConstCol (load_stage_date
        (replaceSentinels ["－", "-"] (read_csv_skip4 lines)))
        "Pitch Type" (Cell.str "Unknown")) := by
    rw [load_rapsodo_csv, hpitch]
    rfl
  constructor
  · rw [hload, hfin.1]
    simp [addConstCol]
  · rw [hload]
    exact hfin.2

/-- Witness for C10 at a concrete table without a "Pitch Type" column. -/
theorem c10_unknown_category_witness :
    ¬ "Pitch Type" ∈
      (read_csv_skip4 ["m1", "m2", "n", "m4", "Date,Velocity",
        "2024-05-01,100"]).cols ∧
    ∀ r ∈ (load_rapsodo_csv ["m1", "m2", "n", "m4", "Date,Velocity",
        "2024-05-01,100"]).rows,
      cellAt (load_rapsodo_csv ["m1", "m2", "n", "m4", "Date,Velocity",
        "2024-05-01,100"]).cols "Pitch Type" r = Cell.str "Unknown" :=
  ⟨by decide,
    (c10_unknown_category ["m1", "m2", "n", "m4", "Date,Velocity",
      "2024-05-01,100"] (by decide)).2⟩

end Baseball
